import Mathlib

/-!
Shallow embedding of `logexec.go` (package main of firstfoundry/logexec).

The program supervises a child process, forwards its stdout/stderr through
two `logPipe` forwarders into syslog sinks, and a central `select` loop in
`main` arbitrates signals, child exit, forwarder completion and stream
errors.  We embed:

* the line-bounding step of `logPipe` (trim + truncate with an ellipsis),
* the whole `logPipe` read loop as a function over a finite trace of
  `bufio.Reader.ReadLine` results (with the writer's responses as a
  further input trace),
* `getExitStatus` over a datatype of Go `Wait` outcomes,
* the `main` event loop as a step function over a finite trace of
  `select` events, tracking the observable side effects (writes to the
  stderr syslog sink, `cmd.Process.Kill`, forwarded signals).

Bytes are modelled as `Nat` (a Go `byte` value), Go strings as Lean
`String`, the `maxline` flag (a Go `int`) as `Int`.
-/

/-! ### Bytes, trimming, and the bounding step of `logPipe` -/

/-- The ASCII whitespace set used by `bytes.TrimSpace`'s ASCII fast path:
tab, newline, vertical tab, form feed, carriage return, space. -/
def isSpaceByte (b : Nat) : Bool :=
  b == 9 || b == 10 || b == 11 || b == 12 || b == 13 || b == 32

/-- `bytes.TrimSpace` (restricted to ASCII byte sequences): drop leading and
trailing whitespace bytes. -/
def trimSpace (l : List Nat) : List Nat :=
  ((l.dropWhile isSpaceByte).reverse.dropWhile isSpaceByte).reverse

/-- The three bytes of the Go string literal `"..."` appended on truncation. -/
def ellipsis : List Nat := [46, 46, 46]

/-- Lines 106-110 of `logexec.go`:

```go
l := bytes.TrimSpace(line)
if len(l) > *maxLogLine {
    l = l[:*maxLogLine-3]
    l = append(l, "..."...)
}
```

`Option.none` models the Go panic when the slice bound `*maxLogLine-3` is
negative (a slice expression `l[:k]` with `k < 0` panics); in the truncating
branch `*maxLogLine-3 < len(l)` always holds, so a negative bound is the only
panic source. -/
def boundLine (maxLogLine : Int) (line : List Nat) : Option (List Nat) :=
  let l := trimSpace line
  if maxLogLine < (l.length : Int) then
    if maxLogLine - 3 < 0 then Option.none
    else Option.some (l.take (maxLogLine - 3).toNat ++ ellipsis)
  else Option.some l

/-! ### Errors and the `logPipe` read loop -/

/-- A Go `error` value as observed by `main`'s `select` loop: whether it is
the `io.EOF` sentinel (pointer identity, `err != io.EOF`), and the text its
`Error()` method returns (inspected with `strings.Contains`). -/
structure GoError where
  isEOFSentinel : Bool
  msg : String
  deriving DecidableEq

/-- One result of `s.ReadLine()` inside `logPipe`: a line together with the
`isPrefix` flag (`ok line isPfx`), the `io.EOF` sentinel (`eofR`), or any
other read error (`errR`).  `bufio.Reader.ReadLine` never returns the
`io.EOF` sentinel together with data, and `errR` carries a non-`io.EOF`
error, matching the two separate `if` tests in the source. -/
inductive ReadResult where
  | ok (line : List Nat) (isPfx : Bool)
  | eofR
  | errR (e : GoError)
  deriving DecidableEq

/-- How a run of the `logPipe` loop over a finite read trace ends. -/
inductive PipeTerm where
  /-- The read trace is exhausted: the loop is blocked in its next
  `s.ReadLine()` call. -/
  | blocked
  /-- The goroutine sent this error on the shared `logErr` channel and
  returned. -/
  | sent (e : GoError)
  /-- The truncation step panicked (negative slice bound). -/
  | wpanic
  deriving DecidableEq

/-- The error `logPipe` sends when `ReadLine` returns `io.EOF`:
`errors.New("Error reading: got EOF. Exiting\n")` — a fresh error value,
not the `io.EOF` sentinel. -/
def prematureEOFErr : GoError := ⟨false, "Error reading: got EOF. Exiting\n"⟩

/-- The `for` loop of `logPipe` (lines 80-117 of `logexec.go`) run over a
finite trace `rs` of `ReadLine` results, starting with the given
`lastWasPrefix` flag (`lastWasPfx` here).  `wres` is the trace of results of
successive `w.Write` calls (`Option.none` = success; an exhausted trace means
every further write succeeds).  Returns the list of byte sequences written to
`w` and how the run ended.

The Go `switch` has four mutually exclusive cases; note that the
`isPrefix && !lastWasPrefix` case sets the flag but does **not** `continue`,
so control falls through to the trim/truncate/write code, while the two
`lastWasPrefix = true` cases `continue` without writing. -/
def logPipeRun (maxLogLine : Int) :
    List (Option GoError) → Bool → List ReadResult → List (List Nat) × PipeTerm
  | _, _, [] => ([], PipeTerm.blocked)
  | _, _, ReadResult.eofR :: _ => ([], PipeTerm.sent prematureEOFErr)
  | _, _, ReadResult.errR e :: _ => ([], PipeTerm.sent e)
  | wres, lastWasPfx, ReadResult.ok line isPfx :: rs =>
    if isPfx && lastWasPfx then
      -- middle part of long line: continue
      logPipeRun maxLogLine wres true rs
    else if !isPfx && lastWasPfx then
      -- got last part of long line: continue
      logPipeRun maxLogLine wres false rs
    else
      -- `isPfx && !lastWasPfx` (first part of a long line: the flag is set
      -- and control falls through) or `!isPfx && !lastWasPfx` (normal line);
      -- in both cases the flag after this iteration equals `isPfx`.
      match boundLine maxLogLine line with
      | Option.none => ([], PipeTerm.wpanic)
      | Option.some l =>
        match wres with
        | Option.some e :: _ => ([l], PipeTerm.sent e)
        | Option.none :: wr =>
          (l :: (logPipeRun maxLogLine wr isPfx rs).1,
            (logPipeRun maxLogLine wr isPfx rs).2)
        | [] =>
          (l :: (logPipeRun maxLogLine [] isPfx rs).1,
            (logPipeRun maxLogLine [] isPfx rs).2)

/-! ### `getExitStatus` -/

/-- `syscall.WaitStatus.ExitStatus` on Linux: `-1` unless the status encodes
a normal exit (`w & 0x7F == 0`), otherwise `int(w >> 8) & 0xFF`. -/
def exitStatusOf (w : Nat) : Int :=
  if w % 128 == 0 then ((w / 256) % 256 : Nat) else -1

/-- The shape of a non-`nil` error returned by `cmd.Wait()`, as far as
`getExitStatus` inspects it: an `*exec.ExitError` whose `Sys()` is a
`syscall.WaitStatus` (`exitError (some w)`), an `*exec.ExitError` whose
`Sys()` is some other type (`exitError none`), or any other error type
(`otherError`). -/
inductive WaitError where
  | exitError (sys : Option Nat)
  | otherError
  deriving DecidableEq

/-- Lines 154-171 of `logexec.go`.  Note the `if !ok` block for the failed
`syscall.WaitStatus` type assertion is empty (only a comment), so in that
case `estatus` keeps the zero value `syscall.WaitStatus(0)` and the function
returns `WaitStatus(0).ExitStatus()`, i.e. `exitStatusOf 0 = 0`. -/
def getExitStatus : Option WaitError → Int
  | Option.none => 0
  | Option.some WaitError.otherError => 1
  | Option.some (WaitError.exitError (Option.some w)) => exitStatusOf w
  | Option.some (WaitError.exitError Option.none) => exitStatusOf 0

/-! ### `strings.Contains` -/

/-- `needle` occurs at the front of `hay` (helper for `strings.Contains`). -/
def startsWithL : List Char → List Char → Bool
  | _, [] => true
  | [], _ :: _ => false
  | a :: as, b :: bs => a == b && startsWithL as bs

/-- `needle` occurs somewhere in `hay` (helper for `strings.Contains`). -/
def hasSubL : List Char → List Char → Bool
  | [], needle => startsWithL [] needle
  | a :: t, needle => startsWithL (a :: t) needle || hasSubL t needle

/-- `strings.Contains hay sub` from the Go standard library. -/
def strContains (hay sub : String) : Bool :=
  hasSubL hay.data sub.data

/-! ### The `main` event loop -/

/-- Observable side effects of the `main` loop: the formatted strings written
to the stderr syslog sink (`fmt.Fprintf(stderrLog, ...)`), whether
`cmd.Process.Kill()` was called, and how many signals were forwarded with
`cmd.Process.Signal`.  (Messages printed with `log.Printf`/`log.Fatalf` go to
the standard logger, not the syslog sink, and are not tracked.) -/
structure Effects where
  diags : List String
  killed : Bool
  sigsFwd : Nat
  deriving DecidableEq

def addDiag (eff : Effects) (d : String) : Effects :=
  ⟨eff.diags ++ [d], eff.killed, eff.sigsFwd⟩

def setKilled (eff : Effects) : Effects :=
  ⟨eff.diags, true, eff.sigsFwd⟩

def addSig (eff : Effects) : Effects :=
  ⟨eff.diags, eff.killed, eff.sigsFwd + 1⟩

/-- The two nil-able channel variables of the loop: `cmdAlive` is
`cmdChan != nil`, `doneAlive` is `doneChan != nil`. -/
structure MainState where
  cmdAlive : Bool
  doneAlive : Bool
  deriving DecidableEq

/-- One event serviced by the `select` statement: a signal delivery, the
close of `doneChan` (both forwarders exited), the value of `cmd.Wait()` on
`cmdChan` (`Option.none` = `nil` error), or an error on the shared `logErr`
channel. -/
inductive MainEvent where
  | sigEv
  | doneEv
  | cmdEv (w : Option WaitError)
  | logErrEv (g : Option GoError)
  deriving DecidableEq

/-- Result of running the `main` loop over a finite event trace. -/
inductive RunRes where
  /-- Trace exhausted with the loop condition still true: blocked in
  `select`. -/
  | blockedIn (s : MainState) (eff : Effects)
  /-- The loop condition `!(cmdChan == nil && doneChan == nil)` became false:
  the loop falls through, `main` returns, the process exits with code 0. -/
  | normalExit (eff : Effects)
  /-- `os.Exit(code)` or `log.Fatalf` (which exits with code 1) ran. -/
  | fatalExit (code : Int) (eff : Effects)
  deriving DecidableEq

/-- The condition of the logErr branch, lines 217-218:
`err != nil && err != io.EOF && !strings.Contains(err.Error(), "bad file descriptor")`
for a non-`nil` `err`. -/
def fatalLogErr (e : GoError) : Bool :=
  !e.isEOFSentinel && !strContains e.msg "bad file descriptor"

/-- The `for`/`select` loop of `main` (lines 199-227 of `logexec.go`) run
over a finite trace of serviced events.  `ignoreSig` is the `-ignoresig`
flag.  Servicing `doneEv` (resp. `cmdEv`) while the corresponding channel is
already `nil` cannot happen in Go (receiving from a `nil` channel blocks
forever, so `select` never picks it); the model treats such an event like a
fresh one, which is idempotent for `doneEv` and never reached by the theorems
below for `cmdEv`. -/
def runMain (ignoreSig : Bool) : MainState → Effects → List MainEvent → RunRes
  | s, eff, [] =>
    if !s.cmdAlive && !s.doneAlive then RunRes.normalExit eff
    else RunRes.blockedIn s eff
  | s, eff, ev :: rest =>
    if !s.cmdAlive && !s.doneAlive then RunRes.normalExit eff
    else
      match ev with
      | MainEvent.sigEv =>
        -- log.Printf either way; cmd.Process.Signal(sig) unless ignoreSig
        runMain ignoreSig s (if ignoreSig then eff else addSig eff) rest
      | MainEvent.doneEv =>
        runMain ignoreSig ⟨s.cmdAlive, false⟩ eff rest
      | MainEvent.cmdEv w =>
        -- cmdChan = nil; then the exit-status test
        if getExitStatus w != 0 then
          RunRes.fatalExit (getExitStatus w)
            (addDiag eff
              ("Command return non-zero exit status: " ++ toString (getExitStatus w)))
        else
          runMain ignoreSig ⟨false, s.doneAlive⟩ eff rest
      | MainEvent.logErrEv g =>
        match g with
        | Option.none => runMain ignoreSig s eff rest
        | Option.some e =>
          if fatalLogErr e then
            RunRes.fatalExit 1
              (if strContains e.msg "got EOF" then setKilled eff
               else addDiag (setKilled eff)
                 ("Error logging command output: " ++ e.msg))
          else runMain ignoreSig s eff rest

/-- The operating-system exit code a `RunRes` stands for: `normalExit` means
`main` returned, so the process exits 0. -/
def exitCodeOf : RunRes → Option Int
  | RunRes.blockedIn _ _ => Option.none
  | RunRes.normalExit _ => Option.some 0
  | RunRes.fatalExit c _ => Option.some c

/-- Events the loop absorbs without changing the channel state and without
terminating: signals, and logErr values that fail the fatal test. -/
def benignEv : MainEvent → Bool
  | MainEvent.sigEv => true
  | MainEvent.logErrEv Option.none => true
  | MainEvent.logErrEv (Option.some e) => !fatalLogErr e
  | _ => false

/-! ## Helper lemmas -/

theorem startsWithL_append (a b n : List Char) (h : startsWithL a n = true) :
    startsWithL (a ++ b) n = true := by
  induction n generalizing a with
  | nil => cases a <;> simp [startsWithL]
  | cons c cs ih =>
    cases a with
    | nil => simp [startsWithL] at h
    | cons d ds =>
      simp only [startsWithL, Bool.and_eq_true] at h
      simp only [List.cons_append, startsWithL, Bool.and_eq_true]
      exact ⟨h.1, ih ds h.2⟩

theorem hasSubL_append_left (a b n : List Char) (h : hasSubL a n = true) :
    hasSubL (a ++ b) n = true := by
  induction a with
  | nil =>
    cases n with
    | nil =>
      cases b <;> simp [hasSubL, startsWithL]
    | cons c cs => simp [hasSubL, startsWithL] at h
  | cons d t ih =>
    simp only [hasSubL, Bool.or_eq_true] at h
    simp only [List.cons_append, hasSubL, Bool.or_eq_true]
    cases h with
    | inl h1 => exact Or.inl (startsWithL_append _ b n h1)
    | inr h2 => exact Or.inr (ih h2)

theorem strContains_append (a b n : String) (h : strContains a n = true) :
    strContains (a ++ b) n = true := by
  have hd : (a ++ b).data = a.data ++ b.data := rfl
  unfold strContains at h ⊢
  rw [hd]
  exact hasSubL_append_left _ _ _ h

theorem boundLine_isSome (m : Int) (hm : 3 ≤ m) (line : List Nat) :
    ∃ l, boundLine m line = Option.some l := by
  unfold boundLine
  have h2 : ¬ (m - 3 < 0) := by omega
  by_cases h1 : m < ((trimSpace line).length : Int) <;> simp [h1, h2]

/-- The splitter, once in the partial state, discards every further fragment
of the same logical line (the middle fragments and the final complete one)
and is back in the non-partial state afterwards. -/
theorem logPipeRun_dropTail (m : Int) (wres : List (Option GoError))
    (mids : List (List Nat)) (fn : List Nat) (rs : List ReadResult) :
    logPipeRun m wres true
        (mids.map (fun f => ReadResult.ok f true) ++ ReadResult.ok fn false :: rs)
      = logPipeRun m wres false rs := by
  induction mids with
  | nil => simp [logPipeRun]
  | cons f t ih => simp [logPipeRun, ih]

/-! ## Claims about `getExitStatus` and the line splitter -/

/-- Claim C1 (code bug): `getExitStatus` maps a `nil` error to 0, a
non-`ExitError` to 1 and a `WaitStatus`-carrying `ExitError` to that
status's encoded exit code; but for an `ExitError` whose `Sys()` is not a
`WaitStatus` it returns 0 — the exit status of the zero-value
`WaitStatus(0)` — not the default 1 promised by the claim and by the code's
own comment (`// Unknown sys type, default to 1` guards an empty block). -/
theorem claim_C1_getExitStatus :
    getExitStatus Option.none = 0 ∧
    getExitStatus (Option.some WaitError.otherError) = 1 ∧
    (∀ w : Nat, getExitStatus (Option.some (WaitError.exitError (Option.some w)))
        = exitStatusOf w) ∧
    getExitStatus (Option.some (WaitError.exitError Option.none)) = 0 :=
  ⟨rfl, rfl, fun _ => rfl, by decide⟩

/-- Claim C2: a complete line read in the non-partial state is emitted as its
whitespace-trimmed form when the trimmed length is at most `maxLogLine`, and
otherwise as a line of length exactly `maxLogLine` ending in `"..."` whose
first `maxLogLine - 3` bytes are a prefix of the trimmed line; the emitted
length never exceeds `maxLogLine`. -/
theorem claim_C2_boundedEmission (m : Int) (hm : 3 ≤ m) (line : List Nat) :
    ∃ out : List Nat,
      logPipeRun m [] false [ReadResult.ok line false] = ([out], PipeTerm.blocked) ∧
      (out.length : Int) ≤ m ∧
      (((trimSpace line).length : Int) ≤ m → out = trimSpace line) ∧
      (m < ((trimSpace line).length : Int) →
        (out.length : Int) = m ∧
        out.drop (out.length - 3) = ellipsis ∧
        out.take (m - 3).toNat <+: trimSpace line) := by
  by_cases hlen : m < ((trimSpace line).length : Int)
  · have h3 : ¬ (m - 3 < 0) := by omega
    have hb : boundLine m line
        = Option.some ((trimSpace line).take (m - 3).toNat ++ ellipsis) := by
      unfold boundLine
      simp [hlen, h3]
    have hkt : (m - 3).toNat < (trimSpace line).length := by omega
    have hlenTake : ((trimSpace line).take (m - 3).toNat).length = (m - 3).toNat := by
      simp [List.length_take]
      omega
    have hout : ((trimSpace line).take (m - 3).toNat ++ ellipsis).length
        = (m - 3).toNat + 3 := by
      simp [List.length_append, hlenTake, ellipsis]
    refine ⟨(trimSpace line).take (m - 3).toNat ++ ellipsis,
      by simp [logPipeRun, hb], ?_, ?_, fun _ => ⟨?_, ?_, ?_⟩⟩
    · rw [hout]; omega
    · intro hle; exact absurd hlen (not_lt.2 hle)
    · rw [hout]; omega
    · rw [hout]
      have h33 : (m - 3).toNat + 3 - 3 = (m - 3).toNat := by omega
      rw [h33, List.drop_left' hlenTake]
    · rw [List.take_left' hlenTake]
      exact List.take_prefix _ _
  · have hb : boundLine m line = Option.some (trimSpace line) := by
      unfold boundLine
      simp [hlen]
    exact ⟨trimSpace line, by simp [logPipeRun, hb], by omega, fun _ => rfl,
      fun hc => absurd hc hlen⟩

theorem claim_C2_witness :
    ∃ out : List Nat,
      logPipeRun 10 [] false
          [ReadResult.ok [48,49,50,51,52,53,54,55,56,57,65,66,67,68,69,70] false]
        = ([out], PipeTerm.blocked) ∧
      (out.length : Int) ≤ 10 ∧
      (((trimSpace [48,49,50,51,52,53,54,55,56,57,65,66,67,68,69,70]).length : Int) ≤ 10 →
        out = trimSpace [48,49,50,51,52,53,54,55,56,57,65,66,67,68,69,70]) ∧
      ((10 : Int) < ((trimSpace [48,49,50,51,52,53,54,55,56,57,65,66,67,68,69,70]).length : Int) →
        (out.length : Int) = 10 ∧
        out.drop (out.length - 3) = ellipsis ∧
        out.take ((10 : Int) - 3).toNat
          <+: trimSpace [48,49,50,51,52,53,54,55,56,57,65,66,67,68,69,70]) :=
  claim_C2_boundedEmission 10 (by decide) [48,49,50,51,52,53,54,55,56,57,65,66,67,68,69,70]

/-- Claim C3 counterexample: a partial fragment arriving in the non-partial
state is **not** swallowed — with `maxLogLine = 10` and the two-byte fragment
`"hi"` read with `isPrefix = true`, the splitter writes `"hi"` to the sink in
that very iteration (the `isPrefix && !lastWasPrefix` case of the `switch`
has no `continue`, so control falls through to the emit code). -/
theorem claim_C3_counterexample :
    logPipeRun 10 [] false [ReadResult.ok [104, 105] true]
      = ([[104, 105]], PipeTerm.blocked) ∧
    (logPipeRun 10 [] false [ReadResult.ok [104, 105] true]).1 ≠ [] := by
  exact ⟨by decide, by decide⟩

/-- Claim C3, amended: whenever the reader returns a partial fragment while
the splitter is in the non-partial state, the splitter sets its
`lastWasPrefix` flag **and falls through to emit** the trimmed/truncated
`BoundedLine` derived from that first fragment, then continues the loop in
the partial state. -/
theorem claim_C3_firstFragment (m : Int) (line l : List Nat) (rs : List ReadResult)
    (h : boundLine m line = Option.some l) :
    logPipeRun m [] false (ReadResult.ok line true :: rs)
      = (l :: (logPipeRun m [] true rs).1, (logPipeRun m [] true rs).2) := by
  simp [logPipeRun, h]

theorem claim_C3_firstFragment_witness :
    logPipeRun 10 [] false [ReadResult.ok [104, 105] true]
      = ([104, 105] :: (logPipeRun 10 [] true []).1, (logPipeRun 10 [] true []).2) :=
  claim_C3_firstFragment 10 [104, 105] [104, 105] [] (by decide)

/-- Claim C4: a logical line delivered as a first partial fragment, then any
number of middle partial fragments, then a final complete fragment produces
exactly one emitted `BoundedLine`, derived from the first fragment only; all
subsequent fragments are dropped without emission and the splitter continues
on the rest of the stream in the non-partial state. -/
theorem claim_C4_oneLinePerLogicalLine (m : Int) (f0 fn l : List Nat)
    (mids : List (List Nat)) (rs : List ReadResult)
    (h : boundLine m f0 = Option.some l) :
    logPipeRun m [] false
        (ReadResult.ok f0 true ::
          (mids.map (fun f => ReadResult.ok f true) ++ ReadResult.ok fn false :: rs))
      = (l :: (logPipeRun m [] false rs).1, (logPipeRun m [] false rs).2) := by
  simp [logPipeRun, h, logPipeRun_dropTail]

theorem claim_C4_witness :
    logPipeRun 5 [] false
        (ReadResult.ok [97, 98, 99, 100, 101, 102] true ::
          (([[107]]).map (fun f => ReadResult.ok f true) ++ ReadResult.ok [110] false :: []))
      = ([97, 98, 46, 46, 46] :: (logPipeRun 5 [] false []).1,
          (logPipeRun 5 [] false []).2) :=
  claim_C4_oneLinePerLogicalLine 5 [97, 98, 99, 100, 101, 102] [110]
    [97, 98, 46, 46, 46] [[107]] [] (by decide)

/-- Claim C8: whenever `ReadLine` returns the clean end-of-stream sentinel
`io.EOF`, the forwarder — in any state, at any iteration, for either stream
(the run is the same function for both forwarders) — sends the
premature-EOF error on the shared `logErr` channel and returns, emitting
nothing; the sent error is a fresh error (not the `io.EOF` sentinel) whose
text contains `"got EOF"`. -/
theorem claim_C8_eofIsError (m : Int) (wres : List (Option GoError))
    (flag : Bool) (rs : List ReadResult) :
    logPipeRun m wres flag (ReadResult.eofR :: rs) = ([], PipeTerm.sent prematureEOFErr) ∧
    prematureEOFErr.isEOFSentinel = false ∧
    strContains prematureEOFErr.msg "got EOF" = true :=
  ⟨rfl, rfl, by decide⟩

/-- Claim C10: under the precondition `3 ≤ maxLogLine` the truncation step
never produces a negative slice bound, so the bounding step succeeds on every
input and no run of the splitter loop ever panics; and with `maxLogLine < 3`
any over-length trimmed line makes the slice bound `maxLogLine - 3` negative,
which is a Go panic (`Option.none` here). -/
theorem claim_C10_truncationSafety :
    (∀ m : Int, 3 ≤ m → ∀ line : List Nat, (boundLine m line).isSome = true) ∧
    (∀ m : Int, 3 ≤ m → ∀ (wres : List (Option GoError)) (flag : Bool)
        (rs : List ReadResult), (logPipeRun m wres flag rs).2 ≠ PipeTerm.wpanic) ∧
    (∀ (m : Int) (line : List Nat), m < 3 → m < ((trimSpace line).length : Int) →
        boundLine m line = Option.none) := by
  refine ⟨?_, ?_, ?_⟩
  · intro m hm line
    obtain ⟨l, hl⟩ := boundLine_isSome m hm line
    simp [hl]
  · intro m hm wres flag rs
    induction rs generalizing wres flag with
    | nil => simp [logPipeRun]
    | cons r t ih =>
      cases r with
      | eofR => simp [logPipeRun]
      | errR e => simp [logPipeRun]
      | ok line isPfx =>
        obtain ⟨l, hl⟩ := boundLine_isSome m hm line
        cases isPfx <;> cases flag
        · cases wres with
          | nil => simpa [logPipeRun, hl] using ih [] false
          | cons w wr =>
            cases w with
            | none => simpa [logPipeRun, hl] using ih wr false
            | some e => simp [logPipeRun, hl]
        · simpa [logPipeRun] using ih wres false
        · cases wres with
          | nil => simpa [logPipeRun, hl] using ih [] true
          | cons w wr =>
            cases w with
            | none => simpa [logPipeRun, hl] using ih wr true
            | some e => simp [logPipeRun, hl]
        · simpa [logPipeRun] using ih wres true
  · intro m line h3 hlen
    unfold boundLine
    simp [hlen, h3]

theorem claim_C10_witness :
    (boundLine 8192 [65]).isSome = true ∧
    (logPipeRun 3 [] false [ReadResult.ok [65, 66, 67, 68] false]).2 ≠ PipeTerm.wpanic ∧
    boundLine 2 [65, 66, 67] = Option.none :=
  ⟨claim_C10_truncationSafety.1 8192 (by decide) [65],
    claim_C10_truncationSafety.2.1 3 (by decide) [] false
      [ReadResult.ok [65, 66, 67, 68] false],
    claim_C10_truncationSafety.2.2 2 [65, 66, 67] (by decide) (by decide)⟩

/-! ## Helper lemmas about the `main` loop -/

theorem runMain_dead (ig : Bool) (s : MainState) (eff : Effects)
    (evs : List MainEvent) (h : (!s.cmdAlive && !s.doneAlive) = true) :
    runMain ig s eff evs = RunRes.normalExit eff := by
  cases evs <;> simp [runMain, h]

theorem runMain_benign_cons (ig : Bool) (s : MainState) (eff : Effects)
    (e : MainEvent) (rest : List MainEvent) (hb : benignEv e = true) :
    ∃ eff', runMain ig s eff (e :: rest) = runMain ig s eff' rest := by
  by_cases hd : (!s.cmdAlive && !s.doneAlive) = true
  · exact ⟨eff, by rw [runMain_dead ig s eff _ hd, runMain_dead ig s eff rest hd]⟩
  · have hd' : (!s.cmdAlive && !s.doneAlive) = false := by
      revert hd; cases (!s.cmdAlive && !s.doneAlive) <;> simp
    cases e with
    | sigEv => exact ⟨if ig then eff else addSig eff, by simp [runMain, hd']⟩
    | doneEv => simp [benignEv] at hb
    | cmdEv w => simp [benignEv] at hb
    | logErrEv g =>
      cases g with
      | none => exact ⟨eff, by simp [runMain, hd']⟩
      | some ge =>
        have hf : fatalLogErr ge = false := by
          revert hb; simp [benignEv]
        exact ⟨eff, by simp [runMain, hd', hf]⟩

theorem runMain_benign_append (ig : Bool) (pre : List MainEvent) :
    ∀ (s : MainState) (eff : Effects) (rest : List MainEvent),
      (∀ e ∈ pre, benignEv e = true) →
      ∃ eff', runMain ig s eff (pre ++ rest) = runMain ig s eff' rest := by
  induction pre with
  | nil => exact fun s eff rest _ => ⟨eff, rfl⟩
  | cons e t ih =>
    intro s eff rest h
    obtain ⟨eff1, h1⟩ :=
      runMain_benign_cons ig s eff e (t ++ rest) (h e (List.mem_cons_self e t))
    obtain ⟨eff2, h2⟩ := ih s eff1 rest (fun x hx => h x (List.mem_cons_of_mem e hx))
    exact ⟨eff2, by rw [List.cons_append, h1, h2]⟩

theorem runMain_normal_events (ig : Bool) (evs : List MainEvent) :
    ∀ (s : MainState) (eff eff' : Effects),
      runMain ig s eff evs = RunRes.normalExit eff' →
      (s.cmdAlive = true → ∃ w, MainEvent.cmdEv w ∈ evs) ∧
      (s.doneAlive = true → MainEvent.doneEv ∈ evs) := by
  induction evs with
  | nil =>
    intro s eff eff' h
    constructor
    · intro hc
      simp [runMain, hc] at h
    · intro hdn
      simp [runMain, hdn] at h
  | cons e rest ih =>
    intro s eff eff' h
    by_cases hdead : (!s.cmdAlive && !s.doneAlive) = true
    · have h1 : s.cmdAlive = false := by
        revert hdead; cases s.cmdAlive <;> simp
      have h2 : s.doneAlive = false := by
        revert hdead; cases s.doneAlive <;> simp
      exact ⟨fun hx => absurd hx (by simp [h1]), fun hx => absurd hx (by simp [h2])⟩
    · have hd' : (!s.cmdAlive && !s.doneAlive) = false := by
        revert hdead; cases (!s.cmdAlive && !s.doneAlive) <;> simp
      cases e with
      | sigEv =>
        rw [show runMain ig s eff (MainEvent.sigEv :: rest)
            = runMain ig s (if ig then eff else addSig eff) rest by
          simp [runMain, hd']] at h
        obtain ⟨hc, hdn⟩ := ih s _ eff' h
        exact ⟨fun hx => (hc hx).elim (fun w hw => ⟨w, List.mem_cons_of_mem _ hw⟩),
          fun hx => List.mem_cons_of_mem _ (hdn hx)⟩
      | doneEv =>
        rw [show runMain ig s eff (MainEvent.doneEv :: rest)
            = runMain ig ⟨s.cmdAlive, false⟩ eff rest by
          simp [runMain, hd']] at h
        obtain ⟨hc, _⟩ := ih ⟨s.cmdAlive, false⟩ eff eff' h
        exact ⟨fun hx => (hc hx).elim (fun w hw => ⟨w, List.mem_cons_of_mem _ hw⟩),
          fun _ => List.mem_cons_self _ _⟩
      | cmdEv w =>
        by_cases hw : (getExitStatus w != 0) = true
        · rw [show runMain ig s eff (MainEvent.cmdEv w :: rest)
              = RunRes.fatalExit (getExitStatus w)
                  (addDiag eff
                    ("Command return non-zero exit status: "
                      ++ toString (getExitStatus w))) by
            simp [runMain, hd', hw]] at h
          exact absurd h (by simp)
        · have hw' : (getExitStatus w != 0) = false := by
            revert hw; cases (getExitStatus w != 0) <;> simp
          rw [show runMain ig s eff (MainEvent.cmdEv w :: rest)
              = runMain ig ⟨false, s.doneAlive⟩ eff rest by
            simp [runMain, hd', hw']] at h
          obtain ⟨_, hdn⟩ := ih ⟨false, s.doneAlive⟩ eff eff' h
          exact ⟨fun _ => ⟨w, List.mem_cons_self _ _⟩,
            fun hx => List.mem_cons_of_mem _ (hdn hx)⟩
      | logErrEv g =>
        cases g with
        | none =>
          rw [show runMain ig s eff (MainEvent.logErrEv Option.none :: rest)
              = runMain ig s eff rest by simp [runMain, hd']] at h
          obtain ⟨hc, hdn⟩ := ih s eff eff' h
          exact ⟨fun hx => (hc hx).elim (fun w hw => ⟨w, List.mem_cons_of_mem _ hw⟩),
            fun hx => List.mem_cons_of_mem _ (hdn hx)⟩
        | some ge =>
          by_cases hf : fatalLogErr ge = true
          · rw [show runMain ig s eff (MainEvent.logErrEv (Option.some ge) :: rest)
                = RunRes.fatalExit 1
                    (if strContains ge.msg "got EOF" then setKilled eff
                     else addDiag (setKilled eff)
                       ("Error logging command output: " ++ ge.msg)) by
              simp [runMain, hd', hf]] at h
            exact absurd h (by simp)
          · have hf' : fatalLogErr ge = false := by
              revert hf; cases fatalLogErr ge <;> simp
            rw [show runMain ig s eff (MainEvent.logErrEv (Option.some ge) :: rest)
                = runMain ig s eff rest by simp [runMain, hd', hf']] at h
            obtain ⟨hc, hdn⟩ := ih s eff eff' h
            exact ⟨fun hx => (hc hx).elim (fun w hw => ⟨w, List.mem_cons_of_mem _ hw⟩),
              fun hx => List.mem_cons_of_mem _ (hdn hx)⟩

/-! ## Claims about the `main` event loop -/

/-- Claim C5: if the child exits with code 0 (`cmd.Wait()` returns a `nil`
error, or any wait outcome that resolves to 0) and every stream-related
event is benign (a signal, or a `logErr` value that fails the fatal test —
in particular the recognized "bad file descriptor" closure), then once both
the child-wait event and the forwarders-done event have been serviced, in
either order, the loop exits normally and the program's exit code is 0. -/
theorem claim_C5_cleanExit (ig : Bool) (eff : Effects) (pre mid : List MainEvent)
    (w : Option WaitError) (evs : List MainEvent)
    (hpre : ∀ e ∈ pre, benignEv e = true) (hmid : ∀ e ∈ mid, benignEv e = true)
    (hw : getExitStatus w = 0)
    (hord : evs = pre ++ MainEvent.cmdEv w :: (mid ++ [MainEvent.doneEv]) ∨
            evs = pre ++ MainEvent.doneEv :: (mid ++ [MainEvent.cmdEv w])) :
    (∃ eff', runMain ig ⟨true, true⟩ eff evs = RunRes.normalExit eff') ∧
    exitCodeOf (runMain ig ⟨true, true⟩ eff evs) = Option.some 0 := by
  have hstep : ∃ eff', runMain ig ⟨true, true⟩ eff evs = RunRes.normalExit eff' := by
    cases hord with
    | inl hord =>
      subst hord
      obtain ⟨eff1, h1⟩ := runMain_benign_append ig pre ⟨true, true⟩ eff _ hpre
      rw [h1]
      rw [show runMain ig ⟨true, true⟩ eff1
            (MainEvent.cmdEv w :: (mid ++ [MainEvent.doneEv]))
          = runMain ig ⟨false, true⟩ eff1 (mid ++ [MainEvent.doneEv]) by
        simp [runMain, hw]]
      obtain ⟨eff2, h2⟩ := runMain_benign_append ig mid ⟨false, true⟩ eff1 _ hmid
      rw [h2]
      exact ⟨eff2, by simp [runMain]⟩
    | inr hord =>
      subst hord
      obtain ⟨eff1, h1⟩ := runMain_benign_append ig pre ⟨true, true⟩ eff _ hpre
      rw [h1]
      rw [show runMain ig ⟨true, true⟩ eff1
            (MainEvent.doneEv :: (mid ++ [MainEvent.cmdEv w]))
          = runMain ig ⟨true, false⟩ eff1 (mid ++ [MainEvent.cmdEv w]) by
        simp [runMain]]
      obtain ⟨eff2, h2⟩ := runMain_benign_append ig mid ⟨true, false⟩ eff1 _ hmid
      rw [h2]
      exact ⟨eff2, by simp [runMain, hw]⟩
  obtain ⟨eff', he⟩ := hstep
  exact ⟨⟨eff', he⟩, by rw [he]; rfl⟩

theorem claim_C5_witness :
    (∃ eff', runMain false ⟨true, true⟩ ⟨[], false, 0⟩
        ([MainEvent.logErrEv (Option.some ⟨false, "read |0: bad file descriptor"⟩)] ++
          MainEvent.cmdEv Option.none :: ([MainEvent.sigEv] ++ [MainEvent.doneEv]))
      = RunRes.normalExit eff') ∧
    exitCodeOf (runMain false ⟨true, true⟩ ⟨[], false, 0⟩
        ([MainEvent.logErrEv (Option.some ⟨false, "read |0: bad file descriptor"⟩)] ++
          MainEvent.cmdEv Option.none :: ([MainEvent.sigEv] ++ [MainEvent.doneEv])))
      = Option.some 0 :=
  claim_C5_cleanExit false ⟨[], false, 0⟩
    [MainEvent.logErrEv (Option.some ⟨false, "read |0: bad file descriptor"⟩)]
    [MainEvent.sigEv] Option.none _ (by decide) (by decide) rfl (Or.inl rfl)

/-- Claim C6: if the child-wait event reports an exit status encoding
`N` with `1 ≤ N ≤ 255`, the loop writes the diagnostic
`"Command return non-zero exit status: N"` — which contains
`"non-zero exit status"` — to the stderr syslog sink and calls `os.Exit N`
at once: the remaining trace (in particular any pending forwarders-done
event) is never serviced, whatever the state of `doneChan`. -/
theorem claim_C6_nonzeroExit (ig dAlive : Bool) (eff : Effects) (N : Nat)
    (h1 : 1 ≤ N) (h2 : N ≤ 255) (evs : List MainEvent) :
    runMain ig ⟨true, dAlive⟩ eff
        (MainEvent.cmdEv (Option.some (WaitError.exitError (Option.some (256 * N)))) :: evs)
      = RunRes.fatalExit (N : Int)
          (addDiag eff ("Command return non-zero exit status: " ++ toString (N : Int))) ∧
    strContains ("Command return non-zero exit status: " ++ toString (N : Int))
        "non-zero exit status" = true := by
  have hes : getExitStatus
      (Option.some (WaitError.exitError (Option.some (256 * N)))) = (N : Int) := by
    show exitStatusOf (256 * N) = (N : Int)
    unfold exitStatusOf
    have ha : 256 * N % 128 = 0 := by omega
    have hb : 256 * N / 256 % 256 = N := by omega
    rw [ha, hb]
    simp
  constructor
  · have hne : ((N : Int) != 0) = true := by
      simp only [bne_iff_ne, ne_eq]
      omega
    simp [runMain, hes, hne]
  · exact strContains_append "Command return non-zero exit status: "
      (toString (N : Int)) "non-zero exit status" (by decide)

theorem claim_C6_witness :
    runMain false ⟨true, true⟩ ⟨[], false, 0⟩
        (MainEvent.cmdEv (Option.some (WaitError.exitError (Option.some (256 * 7))))
          :: [MainEvent.doneEv])
      = RunRes.fatalExit ((7 : Nat) : Int)
          (addDiag ⟨[], false, 0⟩
            ("Command return non-zero exit status: " ++ toString ((7 : Nat) : Int))) ∧
    strContains ("Command return non-zero exit status: " ++ toString ((7 : Nat) : Int))
        "non-zero exit status" = true :=
  claim_C6_nonzeroExit false true ⟨[], false, 0⟩ 7 (by decide) (by decide)
    [MainEvent.doneEv]

/-- Claim C7: while the loop is live, a forwarder-reported stream error that
is neither the "bad file descriptor" condition nor the premature-EOF case
(and, being forwarder-reported, is never the `io.EOF` sentinel) makes the
coordinator kill the child, write a diagnostic to the stderr syslog sink and
terminate with exit code 1 (`log.Fatalf`), leaving the rest of the trace
unserviced; a "bad file descriptor" error is ignored and the loop goes on
unchanged. -/
theorem claim_C7_streamError (ig : Bool) (s : MainState) (eff : Effects)
    (g : GoError) (evs : List MainEvent)
    (halive : s.cmdAlive = true ∨ s.doneAlive = true) :
    (g.isEOFSentinel = false →
      strContains g.msg "bad file descriptor" = false →
      strContains g.msg "got EOF" = false →
      runMain ig s eff (MainEvent.logErrEv (Option.some g) :: evs)
        = RunRes.fatalExit 1
            (addDiag (setKilled eff) ("Error logging command output: " ++ g.msg))) ∧
    (strContains g.msg "bad file descriptor" = true →
      runMain ig s eff (MainEvent.logErrEv (Option.some g) :: evs)
        = runMain ig s eff evs) := by
  have hd : (!s.cmdAlive && !s.doneAlive) = false := by
    cases halive with
    | inl h => simp [h]
    | inr h => simp [h]
  constructor
  · intro he hb hg
    have hf : fatalLogErr g = true := by simp [fatalLogErr, he, hb]
    simp [runMain, hd, hf, hg]
  · intro hb
    have hf : fatalLogErr g = false := by simp [fatalLogErr, hb]
    simp [runMain, hd, hf]

theorem claim_C7_witness :
    runMain false ⟨true, true⟩ ⟨[], false, 0⟩
        [MainEvent.logErrEv (Option.some ⟨false, "read |0: input/output error"⟩)]
      = RunRes.fatalExit 1
          (addDiag (setKilled ⟨[], false, 0⟩)
            ("Error logging command output: " ++
              (⟨false, "read |0: input/output error"⟩ : GoError).msg)) :=
  (claim_C7_streamError false ⟨true, true⟩ ⟨[], false, 0⟩
      ⟨false, "read |0: input/output error"⟩ [] (Or.inl rfl)).1
    rfl (by decide) (by decide)

/-- Claim C9: the loop never falls through to the normal exit (process code
0) before both the child-wait event and the forwarders-done event have been
serviced: starting from the initial state (both channels live), any trace
whose run ends in `normalExit` must contain a `cmdEv` and a `doneEv`, and
the normal exit carries process exit code 0.  (Any other way the run ends is
either still blocked or one of the immediate `fatalExit` branches.) -/
theorem claim_C9_loopInvariant (ig : Bool) (eff eff' : Effects)
    (evs : List MainEvent)
    (h : runMain ig ⟨true, true⟩ eff evs = RunRes.normalExit eff') :
    (∃ w, MainEvent.cmdEv w ∈ evs) ∧ MainEvent.doneEv ∈ evs ∧
    exitCodeOf (runMain ig ⟨true, true⟩ eff evs) = Option.some 0 := by
  obtain ⟨hc, hdn⟩ := runMain_normal_events ig evs ⟨true, true⟩ eff eff' h
  exact ⟨hc rfl, hdn rfl, by rw [h]; rfl⟩

theorem claim_C9_witness :
    (∃ w, MainEvent.cmdEv w ∈ [MainEvent.cmdEv Option.none, MainEvent.doneEv]) ∧
    MainEvent.doneEv ∈ [MainEvent.cmdEv Option.none, MainEvent.doneEv] ∧
    exitCodeOf (runMain false ⟨true, true⟩ ⟨[], false, 0⟩
        [MainEvent.cmdEv Option.none, MainEvent.doneEv]) = Option.some 0 :=
  claim_C9_loopInvariant false ⟨[], false, 0⟩ ⟨[], false, 0⟩
    [MainEvent.cmdEv Option.none, MainEvent.doneEv] rfl
